import Mathlib

/-!
Shallow embedding of `src/train.py` (seq2seq chatbot training script) and
proofs of its specified properties.

Conventions of the embedding:
* Python ints are `Nat` (all integers here are token ids, lengths, counts,
  iteration numbers — never negative, never overflowing a machine word).
* Python floats (loss values, probabilities) are `Real`.
* Tensors are nested lists: a 2-D tensor is a `List (List _)` in the same
  row/column orientation as the source.
* Fallible Python code (dict lookup, undefined names, `max` of an empty
  sequence) returns `Except PyError _`.
* The external collaborators that are not part of this repository's core
  (the encoder and decoder networks, optimizers, the vocabulary object) are
  abstracted as function/structure parameters; the scalar constants
  `PAD_token`, `SOS_token`, `EOS_token` imported from the `load` module are
  parameters as well, so every theorem holds for any choice of their values.
-/

namespace TrainPy

/-- Unhandled Python runtime errors that `train.py` can raise. -/
inductive PyError where
  | nameError (name : String) : PyError
  | keyError (key : String) : PyError
  | valueError (msg : String) : PyError
deriving DecidableEq, Repr

/-- Model of splitting a list of characters on every occurrence of `sep`,
keeping empty pieces, as Python's `str.split` with an explicit one-character
separator does (`"a  b".split(' ') == ['a', '', 'b']`, `"".split(' ') == ['']`). -/
def pySplitChar (sep : Char) : List Char → List (List Char)
  | [] => [[]]
  | c :: cs =>
    match pySplitChar sep cs with
    | [] => [[]]
    | g :: gs => if c = sep then [] :: g :: gs else (c :: g) :: gs

/-- Model of Python's `sentence.split(' ')`. -/
def pySplitOnSpace (s : String) : List String :=
  (pySplitChar ' ' s.data).map String.mk

/-- Model of Python's `max` on a list of ints: raises `ValueError` on an empty
sequence. -/
def pyMax (l : List ℕ) : Except PyError ℕ :=
  match l with
  | [] => Except.error (PyError.valueError "max() arg is an empty sequence")
  | x :: xs => Except.ok (xs.foldl max x)

/-- Whether a path string starts with the POSIX separator. -/
def startsWithSep (s : String) : Bool :=
  match s.data with
  | [] => false
  | c :: _ => c = '/'

/-- Whether a path string ends with the POSIX separator. -/
def endsWithSep (s : String) : Bool :=
  match s.data.getLast? with
  | none => false
  | some c => c = '/'

/-- Model of `posixpath.join` for a single extra component: an absolute second
component replaces the first, otherwise the separator is inserted unless the
first component is empty or already ends with it. -/
def os_path_join2 (a b : String) : String :=
  if startsWithSep b then b
  else if a = "" ∨ endsWithSep a then a ++ b
  else a ++ "/" ++ b

/-- Model of `os.path.join(a, *parts)` on POSIX. -/
def os_path_join (a : String) (parts : List String) : String :=
  parts.foldl os_path_join2 a

/-- Modelled from the spec: the vocabulary object owned by the external `load`
module (not under src/). Only its `word2index` dictionary is read here; a
dictionary is a key-to-value map that may lack keys. -/
structure Voc where
  word2index : String → Option ℕ

/-- Model of a Python dict subscript `d[k]`: the value when the key is
present, a `KeyError` when it is absent. -/
def dictGet {β : Type} (d : String → Option β) (k : String) : Except PyError β :=
  match d k with
  | some v => Except.ok v
  | none => Except.error (PyError.keyError k)

/-- Model of `indexesFromSentence(voc, sentence)` (train.py line 24):
`[voc.word2index[word] for word in sentence.split(' ')] + [EOS_token]`.
`EOS_token` is imported from the external `load` module, hence a parameter. -/
def indexesFromSentence (EOS_token : ℕ) (voc : Voc) (sentence : String) :
    Except PyError (List ℕ) :=
  ((pySplitOnSpace sentence).mapM (dictGet voc.word2index)).map
    (fun idxs => idxs ++ [EOS_token])

/-- A small concrete vocabulary used to instantiate the theorems below on
executable inputs. -/
def vocExample : Voc :=
  ⟨fun w => if w = "hello" then some 4 else if w = "there" then some 6 else none⟩

/-- Length of the longest sequence in a batch (the number of tuples
`itertools.zip_longest` produces). -/
def pyMaxLen (l : List (List ℕ)) : ℕ :=
  (l.map List.length).foldr max 0

/-- Model of `itertools.zip_longest(*l, fillvalue=fillvalue)` on a list of
integer sequences: the transpose, where exhausted sequences contribute
`fillvalue`. -/
def zip_longest (l : List (List ℕ)) (fillvalue : ℕ) : List (List ℕ) :=
  (List.range (pyMaxLen l)).map (fun t => l.map (fun seq => seq.getD t fillvalue))

/-- Model of `zeroPadding(l, fillvalue=PAD_token)` (train.py line 28):
`list(itertools.zip_longest(*l, fillvalue=fillvalue))`. -/
def zeroPadding (PAD_token : ℕ) (l : List (List ℕ)) : List (List ℕ) :=
  zip_longest l PAD_token

/-- Model of `binaryMatrix(l, value=PAD_token)` (train.py lines 32-41). The
loop appends, for each row of `l`, a row holding `0` where the token equals
`PAD_token` and `1` elsewhere; the `value` argument is accepted but never used
by the body, which compares against `PAD_token` directly, exactly as the
source does. -/
def binaryMatrix (PAD_token : ℕ) (l : List (List ℕ)) (value : ℕ) : List (List ℕ) :=
  l.map (fun seq => seq.map (fun token => if token = PAD_token then 0 else 1))

/-- Model of `inputVar(l, voc)` (train.py lines 44-49): index every sentence,
record the lengths, pad, and return `(padVar, lengths)`. -/
def inputVar (EOS_token PAD_token : ℕ) (voc : Voc) (l : List String) :
    Except PyError (List (List ℕ) × List ℕ) := do
  let indexes_batch ← l.mapM (indexesFromSentence EOS_token voc)
  let lengths := indexes_batch.map List.length
  let padList := zeroPadding PAD_token indexes_batch
  return (padList, lengths)

/-- Model of `outputVar(l, voc)` (train.py lines 52-59): index every sentence,
take the max target length, pad, mask, and return
`(padVar, mask, max_target_len)`. -/
def outputVar (EOS_token PAD_token : ℕ) (voc : Voc) (l : List String) :
    Except PyError (List (List ℕ) × List (List ℕ) × ℕ) := do
  let indexes_batch ← l.mapM (indexesFromSentence EOS_token voc)
  let max_target_len ← pyMax (indexes_batch.map List.length)
  let padList := zeroPadding PAD_token indexes_batch
  let mask := binaryMatrix PAD_token padList PAD_token
  return (padList, mask, max_target_len)

/-- Sort key used by `batch2TrainData`: `len(x[0].split(" "))`. -/
def sourceLen (pair : String × String) : ℕ :=
  (pySplitOnSpace pair.1).length

/-- Model of `batch2TrainData(voc, pair_batch)` (train.py lines 62-70).
`pair_batch.sort(key=..., reverse=True)` is a stable sort by descending
source-token count, modelled by `List.insertionSort` with the relation
"my key is at least yours" (also stable, and it sorts descending). -/
def batch2TrainData (EOS_token PAD_token : ℕ) (voc : Voc)
    (pair_batch : List (String × String)) :
    Except PyError (List (List ℕ) × List ℕ × List (List ℕ) × List (List ℕ) × ℕ) := do
  let sorted_batch := pair_batch.insertionSort (fun a b => sourceLen b ≤ sourceLen a)
  let input_batch := sorted_batch.map Prod.fst
  let output_batch := sorted_batch.map Prod.snd
  let (inp, lengths) ← inputVar EOS_token PAD_token voc input_batch
  let (output, mask, max_target_len) ← outputVar EOS_token PAD_token voc output_batch
  return (inp, lengths, output, mask, max_target_len)

/-- Contents of the caller's `pair_batch` list object after `batch2TrainData`
returns: `list.sort` (train.py line 63) reorders that very list in place, so
the caller observes the sorted permutation, not the order it passed in. -/
def batch2TrainData_pairBatchAfter (pair_batch : List (String × String)) :
    List (String × String) :=
  pair_batch.insertionSort (fun a b => sourceLen b ≤ sourceLen a)

/-- Model of `torch.gather(inp, 1, target.view(-1, 1)).squeeze(1)`: the
probability row `i` of `inp` assigns to the target id `target[i]`. -/
def gatherTarget (inp : List (List ℝ)) (target : List ℕ) : List ℝ :=
  (inp.zip target).map (fun p => p.1.getD p.2 0)

/-- Model of `maskNLLLoss(inp, target, mask)` (train.py lines 73-79). The mask
is a 0/1 byte tensor row: `mask.sum()` adds its entries, `masked_select` keeps
the cross-entropy entries at nonzero mask positions, and `.mean()` averages
them. Returns `(loss, nTotal)`. -/
noncomputable def maskNLLLoss (inp : List (List ℝ)) (target : List ℕ)
    (mask : List ℕ) : ℝ × ℕ :=
  let nTotal := mask.sum
  let crossEntropy := (gatherTarget inp target).map (fun x => -Real.log x)
  let selected := ((crossEntropy.zip mask).filter (fun p => p.2 != 0)).map Prod.fst
  (selected.sum / (selected.length : ℝ), nTotal)

/-- Model of `decoder_output.topk(1)` along a single row: the index of the
first occurrence of the row's largest entry. -/
noncomputable def topkIndex (row : List ℝ) : ℕ :=
  ((List.range row.length).argmax (fun i => row.getD i 0)).getD 0

/-- Arguments of `train(...)` (train.py lines 85-88). The encoder and decoder
networks, their hidden-state layers and the encoder outputs are external
collaborators (model.py is not under src/), abstracted as functions and
opaque types; `SOS_token` comes from the `load` module; the teacher-forcing
coin flip (line 116) is a parameter decided once per call. The optimizers,
gradient clipping and the embedding only mutate network weights and do not
affect the returned loss, so they are not modelled. -/
structure TrainArgs (Hl E : Type) where
  input_variable : List (List ℕ)
  lengths : List ℕ
  target_variable : List (List ℕ)
  mask : List (List ℕ)
  max_target_len : ℕ
  encoder : List (List ℕ) → List ℕ → E × List Hl
  decoder : List ℕ → List Hl → E → List (List ℝ) × List Hl
  decoder_n_layers : ℕ
  batch_size : ℕ
  SOS_token : ℕ
  use_teacher_forcing : Bool

/-- The mutable locals of the decode loop in `train` (lines 101-147). -/
structure TrainState (Hl : Type) where
  decoder_input : List ℕ
  decoder_hidden : List Hl
  loss : ℝ
  print_losses : List ℝ
  n_totals : ℕ

/-- One timestep `t` of the decode loop of `train` (lines 119-147): run the
decoder, pick the next decoder input (ground-truth target row under teacher
forcing, otherwise the row-wise top-1 prediction), and accumulate the masked
loss, `print_losses` and `n_totals`. -/
noncomputable def trainStep {Hl E : Type} (A : TrainArgs Hl E) (t : ℕ)
    (s : TrainState Hl) : TrainState Hl :=
  let encoder_outputs := (A.encoder A.input_variable A.lengths).1
  let dstep := A.decoder s.decoder_input s.decoder_hidden encoder_outputs
  let decoder_output := dstep.1
  let target_row := A.target_variable.getD t []
  let next_input :=
    if A.use_teacher_forcing then target_row
    else (List.range A.batch_size).map (fun i => topkIndex (decoder_output.getD i []))
  let r := maskNLLLoss decoder_output target_row (A.mask.getD t [])
  { decoder_input := next_input,
    decoder_hidden := dstep.2,
    loss := s.loss + r.1,
    print_losses := s.print_losses ++ [r.1 * (r.2 : ℝ)],
    n_totals := s.n_totals + r.2 }

/-- The state entering the decode loop (lines 101-113): zero accumulators, a
row of `SOS_token`s as decoder input, and the top `decoder.n_layers` layers of
the encoder's final hidden state as decoder hidden state. -/
def initState {Hl E : Type} (A : TrainArgs Hl E) : TrainState Hl :=
  { decoder_input := List.replicate A.batch_size A.SOS_token,
    decoder_hidden := (A.encoder A.input_variable A.lengths).2.take A.decoder_n_layers,
    loss := 0,
    print_losses := [],
    n_totals := 0 }

/-- Model of `train(...)` (train.py lines 85-160): run the decode loop for
`max_target_len` timesteps and return `sum(print_losses) / n_totals`. -/
noncomputable def train {Hl E : Type} (A : TrainArgs Hl E) : ℝ :=
  let final := (List.range A.max_target_len).foldl (fun s t => trainStep A t s) (initState A)
  final.print_losses.sum / (final.n_totals : ℝ)

/-- The loop state just before timestep `t` of the decode loop. -/
noncomputable def trainStateAt {Hl E : Type} (A : TrainArgs Hl E) (t : ℕ) :
    TrainState Hl :=
  (List.range t).foldl (fun s u => trainStep A u s) (initState A)

/-- The decoder output tensor produced at timestep `t` of the decode loop. -/
noncomputable def decoderOutputAt {Hl E : Type} (A : TrainArgs Hl E) (t : ℕ) :
    List (List ℝ) :=
  (A.decoder (trainStateAt A t).decoder_input (trainStateAt A t).decoder_hidden
    (A.encoder A.input_variable A.lengths).1).1

/-- The pair `(mask_loss, nTotal)` computed at timestep `t` of the decode
loop (lines 127-128 resp. 143-144). -/
noncomputable def stepLossAt {Hl E : Type} (A : TrainArgs Hl E) (t : ℕ) : ℝ × ℕ :=
  maskNLLLoss (decoderOutputAt A t) (A.target_variable.getD t []) (A.mask.getD t [])

/-- Names bound at module level of train.py: the imports (lines 1-14), the
module-level assignments (lines 17-18), and the nine function definitions.
The name `checkpoint` is not among them, and `trainIters` binds no local with
that name either. -/
def trainModuleGlobals : List String :=
  ["torch", "nn", "F", "optim", "cudnn", "itertools", "random", "math", "os",
   "time", "SOS_token", "EOS_token", "PAD_token", "LuongAttnDecoderRNN",
   "MAX_LENGTH", "teacher_forcing_ratio", "hidden_size", "attn_model",
   "USE_CUDA", "device", "indexesFromSentence", "zeroPadding", "binaryMatrix",
   "inputVar", "outputVar", "batch2TrainData", "maskNLLLoss", "train",
   "trainIters"]

/-- Model of evaluating a bare name inside `trainIters` that is not one of its
locals: Python falls back to the module globals, and an unbound name raises
`NameError`. -/
def evalGlobalName (name : String) : Except PyError Unit :=
  if name ∈ trainModuleGlobals then Except.ok ()
  else Except.error (PyError.nameError name)

/-- Model of train.py lines 184-187: `start_iteration = 1`, then
`if loadFilename: start_iteration = checkpoint['iteration'] + 1`. The
parameter `checkpoint_iteration` stands for the value `checkpoint['iteration']`
would produce if the name `checkpoint` were bound; evaluating the name comes
first and fails, so it is never consulted. -/
def trainIters_start_iteration (loadFilename : Bool) (checkpoint_iteration : ℕ) :
    Except PyError ℕ :=
  if loadFilename then
    match evalGlobalName "checkpoint" with
    | Except.error e => Except.error e
    | Except.ok _ => Except.ok (checkpoint_iteration + 1)
  else Except.ok 1

/-- The iteration numbers the `trainIters` training loop runs,
`range(start_iteration, n_iteration + 1)` (line 191), or the error raised
before the loop is reached. -/
def trainIters_loop_iterations (loadFilename : Bool)
    (checkpoint_iteration n_iteration : ℕ) : Except PyError (List ℕ) :=
  (trainIters_start_iteration loadFilename checkpoint_iteration).map
    (fun s => List.range' s (n_iteration + 1 - s))

/-- Model of the `'{}-{}_{}_{}'.format(encoder_n_layers, decoder_n_layers,
hidden_size, train_name)` directory component (lines 226-228). `hidden_size`
is the constant imported from the external config module, a parameter here. -/
def checkpointSubdir (encoder_n_layers decoder_n_layers hidden_size : ℕ)
    (train_name : String) : String :=
  toString encoder_n_layers ++ "-" ++ toString decoder_n_layers ++ "_" ++
    toString hidden_size ++ "_" ++ train_name

/-- Model of the `directory` computed at lines 223-228:
`os.path.join(save_dir, model_name, corpus_name, '{}-{}_{}_{}'.format(...))`. -/
def checkpointDirectory (save_dir model_name corpus_name : String)
    (encoder_n_layers decoder_n_layers hidden_size : ℕ) (train_name : String) :
    String :=
  os_path_join save_dir
    [model_name, corpus_name,
     checkpointSubdir encoder_n_layers decoder_n_layers hidden_size train_name]

/-- Model of `'{}_{}.tar'.format(iteration, 'checkpoint')` (line 240). -/
def checkpointFileName (iteration : ℕ) : String :=
  toString iteration ++ "_" ++ "checkpoint" ++ ".tar"

/-- The full path `torch.save` writes to (lines 231-240):
`os.path.join(directory, '{}_{}.tar'.format(iteration, 'checkpoint'))`. -/
def checkpointPath (save_dir model_name corpus_name : String)
    (encoder_n_layers decoder_n_layers hidden_size : ℕ) (train_name : String)
    (iteration : ℕ) : String :=
  os_path_join2
    (checkpointDirectory save_dir model_name corpus_name encoder_n_layers
      decoder_n_layers hidden_size train_name)
    (checkpointFileName iteration)

/-! ### Helper lemmas -/

lemma length_le_pyMaxLen (l : List (List ℕ)) : ∀ s ∈ l, s.length ≤ pyMaxLen l := by
  induction l with
  | nil => intro s hs; cases hs
  | cons a t ih =>
    intro s hs
    have hc : pyMaxLen (a :: t) = max a.length (pyMaxLen t) := rfl
    rcases List.mem_cons.mp hs with h | h
    · subst h; rw [hc]; exact le_max_left _ _
    · rw [hc]; exact le_trans (ih s h) (le_max_right _ _)

lemma pyMaxLen_mem (l : List (List ℕ)) (hne : l ≠ []) :
    pyMaxLen l ∈ l.map List.length := by
  induction l with
  | nil => exact absurd rfl hne
  | cons a t ih =>
    by_cases ht : t = []
    · subst ht; simp [pyMaxLen]
    · rcases Nat.le_total (pyMaxLen t) a.length with h | h
      · simp [pyMaxLen] at h ⊢
        left
        omega
      · have : pyMaxLen (a :: t) = pyMaxLen t := by
          simp [pyMaxLen] at h ⊢; omega
        rw [List.map_cons, this]
        exact List.mem_cons_of_mem _ (ih ht)

lemma map_getD_range {α : Type} (xs : List α) (d : α) :
    (List.range xs.length).map (fun t => xs.getD t d) = xs := by
  apply List.ext_getElem
  · simp
  · intro i h1 h2
    simp only [List.getElem_map, List.getElem_range]
    rw [List.getD_eq_getElem]

/-- The padded column belonging to input sequence `j` is that sequence's
entries continued with the fill value. -/
lemma zip_longest_column (l : List (List ℕ)) (fv : ℕ) (j : ℕ) (hj : j < l.length) :
    (zip_longest l fv).map (fun row => row.getD j 0) =
      (List.range (pyMaxLen l)).map (fun t => (l.get ⟨j, hj⟩).getD t fv) := by
  unfold zip_longest
  rw [List.map_map]
  apply List.map_congr_left
  intro t _
  simp only [Function.comp_apply]
  rw [List.getD_eq_getElem _ _ (by simpa using hj), List.getElem_map,
    List.get_eq_getElem]

/-! ### C1 -/

/-- C1: for a non-empty batch of id sequences, `zeroPadding` pads every
sequence (column of the transposed output) to the same length, the batch's
maximum input length; the original tokens appear in order up to the sequence's
own length, and every later position holds the padding id. -/
theorem zeroPadding_pads_to_max (PAD_token : ℕ) (l : List (List ℕ))
    (hne : l ≠ []) :
    (∀ s ∈ l, s.length ≤ pyMaxLen l) ∧ pyMaxLen l ∈ l.map List.length ∧
    ∀ j (hj : j < l.length),
      ((zeroPadding PAD_token l).map (fun row => row.getD j 0)).length = pyMaxLen l ∧
      ((zeroPadding PAD_token l).map (fun row => row.getD j 0)).take
          (l.get ⟨j, hj⟩).length = l.get ⟨j, hj⟩ ∧
      ((zeroPadding PAD_token l).map (fun row => row.getD j 0)).drop
          (l.get ⟨j, hj⟩).length
        = List.replicate (pyMaxLen l - (l.get ⟨j, hj⟩).length) PAD_token := by
  refine ⟨length_le_pyMaxLen l, pyMaxLen_mem l hne, ?_⟩
  intro j hj
  have hcol := zip_longest_column l PAD_token j hj
  have hle : (l.get ⟨j, hj⟩).length ≤ pyMaxLen l :=
    length_le_pyMaxLen l _ (List.get_mem l j hj)
  unfold zeroPadding
  rw [hcol]
  refine ⟨by simp, ?_, ?_⟩
  · rw [← List.map_take, List.take_range, Nat.min_eq_left hle]
    exact map_getD_range _ _
  · apply List.ext_getElem
    · simp [Nat.min_eq_left hle]
    · intro i h1 h2
      simp only [List.getElem_drop, List.getElem_map, List.getElem_range,
        List.getElem_replicate]
      apply List.getD_eq_default
      omega

/-- Witness for C1 at a concrete batch: hypotheses hold and the padded column
of the shorter sequence is its tokens followed by the padding id. -/
theorem zeroPadding_pads_to_max_witness :
    ([[1, 2, 3], [4, 5]] : List (List ℕ)) ≠ [] ∧
    ((zeroPadding 0 [[1, 2, 3], [4, 5]]).map (fun row => row.getD 1 0)).take 2
      = [4, 5] ∧
    ((zeroPadding 0 [[1, 2, 3], [4, 5]]).map (fun row => row.getD 1 0)).drop 2
      = [0] :=
  ⟨by decide,
    ((zeroPadding_pads_to_max 0 [[1, 2, 3], [4, 5]] (by decide)).2.2 1
      (by decide)).2.1,
    ((zeroPadding_pads_to_max 0 [[1, 2, 3], [4, 5]] (by decide)).2.2 1
      (by decide)).2.2⟩

/-! ### C2 -/

/-- C2: the mask built by `binaryMatrix` has the same shape as its input
matrix, and an in-range entry is `1` exactly when the corresponding token
differs from the padding id, `0` otherwise. -/
theorem binaryMatrix_mask_spec (PAD_token value : ℕ) (l : List (List ℕ)) :
    (binaryMatrix PAD_token l value).length = l.length ∧
    (∀ i, ((binaryMatrix PAD_token l value).getD i []).length
      = (l.getD i []).length) ∧
    ∀ i j, i < l.length → j < (l.getD i []).length →
      (((binaryMatrix PAD_token l value).getD i []).getD j 0
        = if (l.getD i []).getD j 0 = PAD_token then 0 else 1) ∧
      (((binaryMatrix PAD_token l value).getD i []).getD j 0 = 1
        ↔ (l.getD i []).getD j 0 ≠ PAD_token) := by
  refine ⟨by simp [binaryMatrix], ?_, ?_⟩
  · intro i
    by_cases hi : i < l.length
    · rw [List.getD_eq_getElem _ _ (by simpa [binaryMatrix] using hi),
        List.getD_eq_getElem _ _ hi]
      simp [binaryMatrix]
    · rw [List.getD_eq_default _ _ (by simpa [binaryMatrix] using Nat.le_of_not_lt hi),
        List.getD_eq_default _ _ (Nat.le_of_not_lt hi)]
  · intro i j hi hj
    have hrow : ((binaryMatrix PAD_token l value).getD i [])
        = (l.getD i []).map (fun token => if token = PAD_token then 0 else 1) := by
      rw [List.getD_eq_getElem _ _ (by simpa [binaryMatrix] using hi),
        List.getD_eq_getElem _ _ hi]
      simp [binaryMatrix]
    rw [hrow, List.getD_eq_getElem _ _ (by simpa using hj),
      List.getD_eq_getElem _ _ hj, List.getElem_map]
    refine ⟨rfl, ?_⟩
    by_cases h : (l.getD i [])[j] = PAD_token <;> simp [h]

/-- Witness for C2 at a concrete padded matrix with padding id 0. -/
theorem binaryMatrix_mask_spec_witness :
    (0 : ℕ) < 2 ∧ (1 : ℕ) < 2 ∧
    ((binaryMatrix 0 [[7, 0], [0, 5]] 0).getD 0 []).getD 1 0 = 0 ∧
    (((binaryMatrix 0 [[7, 0], [0, 5]] 0).getD 0 []).getD 0 0 = 1 ↔
      (([[7, 0], [0, 5]] : List (List ℕ)).getD 0 []).getD 0 0 ≠ 0) :=
  ⟨by decide, by decide,
    ((binaryMatrix_mask_spec 0 0 [[7, 0], [0, 5]]).2.2 0 1 (by decide)
      (by decide)).1,
    ((binaryMatrix_mask_spec 0 0 [[7, 0], [0, 5]]).2.2 0 0 (by decide)
      (by decide)).2⟩

/-! ### C3 -/

/-- C3: a truthy `loadFilename` makes `trainIters` evaluate the unbound global
name `checkpoint`, raising an unhandled `NameError` before the training loop
runs (no loop iterations are produced); a falsy `loadFilename` sets
`start_iteration` to 1 and the loop runs iterations `1 .. n_iteration` without
that error. -/
theorem trainIters_resume_references_undefined_checkpoint
    (checkpoint_iteration n_iteration : ℕ) :
    trainIters_start_iteration true checkpoint_iteration
      = Except.error (PyError.nameError "checkpoint") ∧
    trainIters_loop_iterations true checkpoint_iteration n_iteration
      = Except.error (PyError.nameError "checkpoint") ∧
    trainIters_start_iteration false checkpoint_iteration = Except.ok 1 ∧
    trainIters_loop_iterations false checkpoint_iteration n_iteration
      = Except.ok (List.range' 1 n_iteration) := by
  have hck : evalGlobalName "checkpoint"
      = Except.error (PyError.nameError "checkpoint") := rfl
  refine ⟨?_, ?_, rfl, ?_⟩
  · simp [trainIters_start_iteration, hck]
  · simp [trainIters_loop_iterations, trainIters_start_iteration, hck,
      Except.map]
  · simp [trainIters_loop_iterations, trainIters_start_iteration, Except.map]

/-! ### C6 -/

lemma mapM_dictGet_ok (d : String → Option ℕ) :
    ∀ ts : List String, (∀ w ∈ ts, (d w).isSome) →
      ts.mapM (dictGet d) = Except.ok (ts.map (fun w => (d w).iget)) := by
  intro ts
  induction ts with
  | nil => intro _; rfl
  | cons w ts ih =>
    intro h
    rw [List.mapM_cons]
    rcases Option.isSome_iff_exists.mp (h w (List.mem_cons_self w ts)) with ⟨v, hv⟩
    have hw : dictGet d w = Except.ok v := by simp [dictGet, hv]
    rw [hw, ih (fun x hx => h x (List.mem_cons_of_mem w hx))]
    simp [hv]
    rfl

lemma mapM_dictGet_err (d : String → Option ℕ) :
    ∀ ts : List String, (∃ w ∈ ts, d w = none) →
      ∃ w, d w = none ∧ ts.mapM (dictGet d) = Except.error (PyError.keyError w) := by
  intro ts
  induction ts with
  | nil => rintro ⟨w, hw, _⟩; cases hw
  | cons w ts ih =>
    intro h
    rw [List.mapM_cons]
    cases hw : d w with
    | none =>
      refine ⟨w, hw, ?_⟩
      have : dictGet d w = Except.error (PyError.keyError w) := by
        simp [dictGet, hw]
      rw [this]
      rfl
    | some v =>
      have hts : ∃ x ∈ ts, d x = none := by
        rcases h with ⟨x, hx, hxn⟩
        rcases List.mem_cons.mp hx with h1 | h1
        · exact absurd hxn (by rw [h1, hw]; simp)
        · exact ⟨x, h1, hxn⟩
      rcases ih hts with ⟨x, hxn, hxe⟩
      have hwv : dictGet d w = Except.ok v := by simp [dictGet, hw]
      refine ⟨x, hxn, ?_⟩
      rw [hwv, hxe]
      rfl

/-- C6: when every whitespace token of the sentence is in the vocabulary,
`indexesFromSentence` returns the tokens' ids in sentence order with the
end-of-sequence id appended as the final element; when some token is absent,
it fails with an unhandled `KeyError` naming a missing token. -/
theorem indexesFromSentence_ids_then_EOS (EOS_token : ℕ) (voc : Voc)
    (sentence : String) :
    ((∀ w ∈ pySplitOnSpace sentence, (voc.word2index w).isSome) →
      indexesFromSentence EOS_token voc sentence
        = Except.ok ((pySplitOnSpace sentence).map
            (fun w => (voc.word2index w).iget) ++ [EOS_token])) ∧
    ((∃ w ∈ pySplitOnSpace sentence, voc.word2index w = none) →
      ∃ w, voc.word2index w = none ∧
        indexesFromSentence EOS_token voc sentence
          = Except.error (PyError.keyError w)) := by
  constructor
  · intro h
    unfold indexesFromSentence
    rw [mapM_dictGet_ok voc.word2index _ h]
    rfl
  · intro h
    rcases mapM_dictGet_err voc.word2index _ h with ⟨w, hwn, hwe⟩
    refine ⟨w, hwn, ?_⟩
    unfold indexesFromSentence
    rw [hwe]
    rfl

/-- Witness for C6: on the sample vocabulary, a fully-known sentence maps to
its ids followed by the end-of-sequence id 2, and a sentence with an unknown
token raises `KeyError`. -/
theorem indexesFromSentence_ids_then_EOS_witness :
    (∀ w ∈ pySplitOnSpace "hello there", (vocExample.word2index w).isSome) ∧
    indexesFromSentence 2 vocExample "hello there" = Except.ok [4, 6, 2] ∧
    (∃ w ∈ pySplitOnSpace "hello up", vocExample.word2index w = none) ∧
    ∃ w, vocExample.word2index w = none ∧
      indexesFromSentence 2 vocExample "hello up"
        = Except.error (PyError.keyError w) :=
  ⟨by decide,
    (indexesFromSentence_ids_then_EOS 2 vocExample "hello there").1 (by decide),
    by decide,
    (indexesFromSentence_ids_then_EOS 2 vocExample "hello up").2 (by decide)⟩

/-! ### C10 -/

/-- C10: `batch2TrainData` sorts the caller's `pair_batch` list object in
place: there are inputs for which the list the caller passed holds a different
order after the call, while its contents are exactly the original pairs (the
post-call list is a permutation of the pre-call one). -/
theorem batch2TrainData_sorts_pair_batch_in_place :
    (∃ b : List (String × String), batch2TrainData_pairBatchAfter b ≠ b) ∧
    (∀ b : List (String × String), (batch2TrainData_pairBatchAfter b).Perm b) := by
  constructor
  · exact ⟨[("a", ""), ("a a", "")], by decide⟩
  · intro b
    exact List.perm_insertionSort _ b

/-! ### C9 -/

lemma mapM_ok_forall2 {α β : Type} (f : α → Except PyError β) :
    ∀ (xs : List α) (ys : List β), xs.mapM f = Except.ok ys →
      List.Forall₂ (fun x y => f x = Except.ok y) xs ys := by
  intro xs
  induction xs with
  | nil =>
    intro ys h
    cases h
    exact List.Forall₂.nil
  | cons x xs ih =>
    intro ys h
    rw [List.mapM_cons] at h
    cases hx : f x with
    | error e => rw [hx] at h; cases h
    | ok y =>
      rw [hx] at h
      cases hxs : xs.mapM f with
      | error e => rw [hxs] at h; cases h
      | ok ys' =>
        rw [hxs] at h
        cases h
        exact List.Forall₂.cons hx (ih ys' hxs)

lemma indexesFromSentence_ok_length (EOS_token : ℕ) (voc : Voc) (s : String)
    (idxs : List ℕ) (h : indexesFromSentence EOS_token voc s = Except.ok idxs) :
    idxs.length = (pySplitOnSpace s).length + 1 := by
  unfold indexesFromSentence at h
  cases hm : (pySplitOnSpace s).mapM (dictGet voc.word2index) with
  | error e => rw [hm] at h; cases h
  | ok l =>
    rw [hm] at h
    cases h
    have := (mapM_ok_forall2 (dictGet voc.word2index) _ _ hm).length_eq
    simp [← this]

lemma forall2_indexes_lengths (EOS_token : ℕ) (voc : Voc) :
    ∀ (xs : List String) (ys : List (List ℕ)),
      List.Forall₂ (fun x y => indexesFromSentence EOS_token voc x = Except.ok y) xs ys →
      ys.map List.length = xs.map (fun s => (pySplitOnSpace s).length + 1) := by
  intro xs ys h
  induction h with
  | nil => rfl
  | cons hR _ ih =>
    simp only [List.map_cons, ih]
    rw [indexesFromSentence_ok_length _ _ _ _ hR]

/-- C9: whenever `batch2TrainData` returns, the returned lengths are the
post-sort source-sentence token counts plus one (for the appended
end-of-sequence id), taken over the batch sorted by descending source token
count — hence the lengths sequence is non-increasing, longest sequence
first. -/
theorem batch2TrainData_lengths_sorted_desc (EOS_token PAD_token : ℕ)
    (voc : Voc) (pair_batch : List (String × String))
    (res : List (List ℕ) × List ℕ × List (List ℕ) × List (List ℕ) × ℕ)
    (h : batch2TrainData EOS_token PAD_token voc pair_batch = Except.ok res) :
    res.2.1 = (pair_batch.insertionSort
        (fun a b => sourceLen b ≤ sourceLen a)).map
        (fun p => (pySplitOnSpace p.1).length + 1) ∧
    res.2.1.Sorted (fun a b => b ≤ a) := by
  simp only [batch2TrainData, bind, Except.bind] at h
  cases hin : inputVar EOS_token PAD_token voc
      ((pair_batch.insertionSort (fun a b => sourceLen b ≤ sourceLen a)).map
        Prod.fst) with
  | error e => rw [hin] at h; cases h
  | ok p =>
    rw [hin] at h
    cases hout : outputVar EOS_token PAD_token voc
        ((pair_batch.insertionSort (fun a b => sourceLen b ≤ sourceLen a)).map
          Prod.snd) with
    | error e => rw [hout] at h; cases h
    | ok q =>
      rw [hout] at h
      cases h
      -- res.2.1 is the lengths component of inputVar's result
      unfold inputVar at hin
      cases hm : ((pair_batch.insertionSort
          (fun a b => sourceLen b ≤ sourceLen a)).map Prod.fst).mapM
          (indexesFromSentence EOS_token voc) with
      | error e => rw [hm] at hin; cases hin
      | ok ib =>
        rw [hm] at hin
        cases hin
        have hlen : ib.map List.length
            = ((pair_batch.insertionSort (fun a b => sourceLen b ≤ sourceLen a)).map
                Prod.fst).map (fun s => (pySplitOnSpace s).length + 1) :=
          forall2_indexes_lengths EOS_token voc _ _
            (mapM_ok_forall2 (indexesFromSentence EOS_token voc) _ _ hm)
        constructor
        · show ib.map List.length = _
          rw [hlen, List.map_map]
          rfl
        · show (ib.map List.length).Sorted (fun a b => b ≤ a)
          rw [hlen, List.map_map]
          haveI : IsTotal (String × String) (fun a b => sourceLen b ≤ sourceLen a) :=
            ⟨fun a b => le_total _ _⟩
          haveI : IsTrans (String × String) (fun a b => sourceLen b ≤ sourceLen a) :=
            ⟨fun _ _ _ hab hbc => le_trans hbc hab⟩
          have hs := List.sorted_insertionSort
            (fun a b => sourceLen b ≤ sourceLen a) pair_batch
          exact List.Pairwise.map _ (fun a b hr => Nat.succ_le_succ hr) hs

/-- Witness for C9: a concrete two-pair batch whose returned lengths come out
as the non-increasing sequence `[3, 2]`. -/
theorem batch2TrainData_lengths_sorted_desc_witness :
    batch2TrainData 2 0 vocExample [("hello", "hello"), ("hello there", "there")]
      = Except.ok ([[4, 4], [6, 2], [2, 0]], [3, 2], [[6, 4], [2, 2]],
          [[1, 1], [1, 1]], 2) ∧
    ([3, 2] : List ℕ).Sorted (fun a b => b ≤ a) :=
  ⟨rfl,
    (batch2TrainData_lengths_sorted_desc 2 0 vocExample
      [("hello", "hello"), ("hello there", "there")]
      ([[4, 4], [6, 2], [2, 0]], [3, 2], [[6, 4], [2, 2]], [[1, 1], [1, 1]], 2)
      rfl).2⟩

/-! ### C4 -/

lemma mask_sum_eq_count : ∀ mask : List ℕ, (∀ x ∈ mask, x = 0 ∨ x = 1) →
    mask.sum = (mask.filter (fun x => x != 0)).length := by
  intro mask
  induction mask with
  | nil => intro _; rfl
  | cons m ms ih =>
    intro h
    have hms := ih (fun x hx => h x (List.mem_cons_of_mem m hx))
    rcases h m (List.mem_cons_self m ms) with hm | hm <;> subst hm <;>
      simp [List.filter_cons, hms] <;> omega

lemma selected_filter_length (a : List ℝ) : ∀ mask : List ℕ,
    a.length = mask.length →
    ((a.zip mask).filter (fun p => p.2 != 0)).length
      = (mask.filter (fun x => x != 0)).length := by
  induction a with
  | nil =>
    intro mask h
    cases mask with
    | nil => rfl
    | cons m ms => cases h
  | cons x a ih =>
    intro mask h
    cases mask with
    | nil => cases h
    | cons m ms =>
      have h' : a.length = ms.length := by simpa using h
      rw [List.zip_cons_cons, List.filter_cons, List.filter_cons]
      by_cases hm : m = 0
      · simp [hm, ih ms h']
      · simp [hm, ih ms h']

lemma selected_sum_eq (a : List ℝ) : ∀ mask : List ℕ,
    a.length = mask.length →
    ((((a.zip mask).filter (fun p => p.2 != 0)).map Prod.fst)).sum
      = ∑ i ∈ Finset.range mask.length,
          (if mask.getD i 0 ≠ 0 then a.getD i 0 else 0) := by
  induction a with
  | nil =>
    intro mask h
    cases mask with
    | nil => simp
    | cons m ms => cases h
  | cons x a ih =>
    intro mask h
    cases mask with
    | nil => cases h
    | cons m ms =>
      have h' : a.length = ms.length := by simpa using h
      rw [List.zip_cons_cons, List.filter_cons, List.length_cons,
        Finset.sum_range_succ']
      simp only [List.getD_cons_succ, List.getD_cons_zero]
      by_cases hm : m = 0
      · simp [hm, ih ms h']
      · simp [hm, ih ms h']
        ring

/-- C4: for same-length decoder-output rows, target row and 0/1 mask row with
at least one nonzero mask entry, `maskNLLLoss` returns the number of
mask-selected positions as its second component, and as its first component
the mean — over exactly the mask-selected positions — of the negative log of
the probability the decoder assigned to the target id. -/
theorem maskNLLLoss_mean_and_count (inp : List (List ℝ)) (target mask : List ℕ)
    (h1 : inp.length = target.length) (h2 : target.length = mask.length)
    (h01 : ∀ x ∈ mask, x = 0 ∨ x = 1) (hne : ∃ x ∈ mask, x ≠ 0) :
    (maskNLLLoss inp target mask).2 = (mask.filter (fun x => x != 0)).length ∧
    (maskNLLLoss inp target mask).1
      = (∑ i ∈ Finset.range mask.length,
          if mask.getD i 0 ≠ 0 then
            -Real.log ((inp.getD i []).getD (target.getD i 0) 0) else 0)
        / ((mask.filter (fun x => x != 0)).length : ℝ) := by
  have hceg : ((gatherTarget inp target).map (fun x => -Real.log x)).length
      = mask.length := by
    simp [gatherTarget, h1, h2]
  simp only [maskNLLLoss]
  refine ⟨mask_sum_eq_count mask h01, ?_⟩
  rw [List.length_map, selected_filter_length _ mask hceg,
    selected_sum_eq _ mask hceg]
  congr 1
  apply Finset.sum_congr rfl
  intro i hi
  have him : i < mask.length := Finset.mem_range.mp hi
  have hit : i < target.length := by rw [h2]; exact him
  have hia : i < inp.length := by rw [h1]; exact hit
  rcases eq_or_ne (mask.getD i 0) 0 with hm | hm
  · rw [if_neg (fun hc => hc hm), if_neg (fun hc => hc hm)]
  · rw [if_pos hm, if_pos hm]
    rw [List.getD_eq_getElem _ _ (by rw [hceg]; exact him), List.getElem_map]
    simp only [gatherTarget, List.getElem_map, List.getElem_zip]
    rw [List.getD_eq_getElem inp _ hia, List.getD_eq_getElem target _ hit]

/-- Witness for C4 on a concrete batch of two rows, both unmasked, with all
probability on the target ids: hypotheses hold and the real-token count is 2. -/
theorem maskNLLLoss_mean_and_count_witness :
    ([[(1 : ℝ)], [1]].length = [0, 0].length) ∧
    ([0, 0].length = [1, 1].length) ∧
    (∀ x ∈ [1, 1], x = 0 ∨ x = 1) ∧ (∃ x ∈ [1, 1], x ≠ 0) ∧
    (maskNLLLoss [[(1 : ℝ)], [1]] [0, 0] [1, 1]).2 = 2 :=
  ⟨rfl, rfl, by decide, by decide,
    (maskNLLLoss_mean_and_count [[(1 : ℝ)], [1]] [0, 0] [1, 1] rfl rfl
      (by decide) (by decide)).1⟩

/-! ### C8 -/

/-- C8: when every probability gathered at a target position lies in `(0, 1]`
and the mask selects at least one position, the loss component returned by
`maskNLLLoss` is nonnegative. -/
theorem maskNLLLoss_nonneg (inp : List (List ℝ)) (target mask : List ℕ)
    (hp : ∀ p ∈ gatherTarget inp target, 0 < p ∧ p ≤ 1)
    (hne : ∃ x ∈ mask, x ≠ 0) :
    0 ≤ (maskNLLLoss inp target mask).1 := by
  simp only [maskNLLLoss]
  apply div_nonneg _ (Nat.cast_nonneg _)
  apply List.sum_nonneg
  intro y hy
  rcases List.mem_map.mp hy with ⟨q, hq, rfl⟩
  have hq1 : q.1 ∈ (gatherTarget inp target).map (fun x => -Real.log x) :=
    (List.of_mem_zip (List.mem_filter.mp hq).1).1
  rcases List.mem_map.mp hq1 with ⟨p, hpm, hpe⟩
  rcases hp p hpm with ⟨hp0, hp1⟩
  rw [← hpe]
  simpa using Real.log_nonpos (le_of_lt hp0) hp1

/-- Witness for C8: probability one half at the single masked position gives a
nonnegative loss. -/
theorem maskNLLLoss_nonneg_witness :
    (∀ p ∈ gatherTarget [[(1 : ℝ) / 2]] [0], 0 < p ∧ p ≤ 1) ∧
    (∃ x ∈ [1], x ≠ 0) ∧
    0 ≤ (maskNLLLoss [[(1 : ℝ) / 2]] [0] [1]).1 :=
  ⟨by intro p hp; simp only [gatherTarget, List.zip_cons_cons, List.zip_nil_right,
      List.map_cons, List.map_nil, List.mem_singleton] at hp; rw [hp]; norm_num,
    by decide,
    maskNLLLoss_nonneg [[(1 : ℝ) / 2]] [0] [1]
      (by intro p hp; simp only [gatherTarget, List.zip_cons_cons, List.zip_nil_right,
        List.map_cons, List.map_nil, List.mem_singleton] at hp; rw [hp]; norm_num)
      (by decide)⟩

/-! ### C5 -/

lemma trainStateAt_succ {Hl E : Type} (A : TrainArgs Hl E) (t : ℕ) :
    trainStateAt A (t + 1) = trainStep A t (trainStateAt A t) := by
  unfold trainStateAt
  rw [List.range_succ, List.foldl_append]
  rfl

lemma trainStateAt_fields {Hl E : Type} (A : TrainArgs Hl E) : ∀ t : ℕ,
    (trainStateAt A t).print_losses
        = (List.range t).map
            (fun u => (stepLossAt A u).1 * ((stepLossAt A u).2 : ℝ)) ∧
    (trainStateAt A t).n_totals
        = ((List.range t).map (fun u => (stepLossAt A u).2)).sum := by
  intro t
  induction t with
  | zero => exact ⟨rfl, rfl⟩
  | succ t ih =>
    rw [trainStateAt_succ, List.range_succ, List.map_append, List.map_append,
      List.sum_append]
    constructor
    · show (trainStateAt A t).print_losses ++ _ = _
      rw [ih.1]
      rfl
    · show (trainStateAt A t).n_totals + _ = _
      rw [ih.2]
      rfl

/-- C5: `train` returns the token-count-weighted average of the per-timestep
masked losses: the sum over decode timesteps of that step's mean masked loss
times that step's real-token count, divided by the total real-token count over
all timesteps. -/
theorem train_returns_weighted_average {Hl E : Type} (A : TrainArgs Hl E) :
    train A = ((List.range A.max_target_len).map
        (fun t => (stepLossAt A t).1 * ((stepLossAt A t).2 : ℝ))).sum
      / ((((List.range A.max_target_len).map
          (fun t => (stepLossAt A t).2)).sum : ℕ) : ℝ) := by
  have h := trainStateAt_fields A A.max_target_len
  show (trainStateAt A A.max_target_len).print_losses.sum
      / ((trainStateAt A A.max_target_len).n_totals : ℝ) = _
  rw [h.1, h.2]

/-! ### C7 -/

lemma digitChar_ne_slash (k : ℕ) : Nat.digitChar k ≠ '/' := by
  rcases Nat.lt_or_ge k 16 with h | h
  · interval_cases k <;> decide
  · obtain ⟨n, rfl⟩ : ∃ n, k = n + 16 := ⟨k - 16, by omega⟩
    have h16 : Nat.digitChar (n + 16) = '*' := by
      unfold Nat.digitChar
      repeat rw [if_neg (by omega)]
    rw [h16]
    decide

lemma toDigitsCore_mem (b : ℕ) : ∀ (f n : ℕ) (ds : List Char) (c : Char),
    c ∈ Nat.toDigitsCore b f n ds → c ∈ ds ∨ ∃ k, c = Nat.digitChar k := by
  intro f
  induction f with
  | zero => intro n ds c hc; exact Or.inl hc
  | succ f ih =>
    intro n ds c hc
    simp only [Nat.toDigitsCore] at hc
    by_cases h : n / b = 0
    · rw [if_pos h] at hc
      rcases List.mem_cons.mp hc with h1 | h1
      · exact Or.inr ⟨n % b, h1⟩
      · exact Or.inl h1
    · rw [if_neg h] at hc
      rcases ih _ _ _ hc with h1 | h1
      · rcases List.mem_cons.mp h1 with h2 | h2
        · exact Or.inr ⟨n % b, h2⟩
        · exact Or.inl h2
      · exact Or.inr h1

lemma toDigitsCore_length_ge (b : ℕ) : ∀ (f n : ℕ) (ds : List Char),
    ds.length ≤ (Nat.toDigitsCore b f n ds).length := by
  intro f
  induction f with
  | zero => intro n ds; exact le_refl _
  | succ f ih =>
    intro n ds
    simp only [Nat.toDigitsCore]
    by_cases h : n / b = 0
    · rw [if_pos h]; exact Nat.le_succ _
    · rw [if_neg h]
      exact le_trans (Nat.le_succ _) (ih (n / b) (Nat.digitChar (n % b) :: ds))

lemma repr_data_ne_nil (n : ℕ) : (Nat.repr n).data ≠ [] := by
  show Nat.toDigits 10 n ≠ []
  unfold Nat.toDigits
  simp only [Nat.toDigitsCore]
  by_cases h : n / 10 = 0
  · rw [if_pos h]; simp
  · rw [if_neg h]
    have hlen := toDigitsCore_length_ge 10 n (n / 10) [Nat.digitChar (n % 10)]
    intro hnil
    rw [hnil] at hlen
    simp at hlen

lemma repr_data_all_digits (n : ℕ) :
    ∀ c ∈ (Nat.repr n).data, ∃ k, c = Nat.digitChar k := by
  intro c hc
  rcases toDigitsCore_mem 10 (n + 1) n [] c hc with h | h
  · cases h
  · exact h

lemma startsWithSep_eq_head (s : String) :
    startsWithSep s = decide (s.data.head? = some '/') := by
  unfold startsWithSep
  cases s.data <;> simp

lemma endsWithSep_eq_last (s : String) :
    endsWithSep s = decide (s.data.getLast? = some '/') := by
  unfold endsWithSep
  cases s.data.getLast? <;> simp

lemma startsWithSep_toString_nat (n : ℕ) : startsWithSep (toString n) = false := by
  show startsWithSep (Nat.repr n) = false
  rw [startsWithSep_eq_head]
  cases hd : (Nat.repr n).data with
  | nil => simp
  | cons c rest =>
    have hc : c ∈ (Nat.repr n).data := by rw [hd]; exact List.mem_cons_self c rest
    rcases repr_data_all_digits n c hc with ⟨k, rfl⟩
    simp [digitChar_ne_slash k]

lemma toString_nat_data_ne_nil (n : ℕ) : (toString n : String).data ≠ [] :=
  repr_data_ne_nil n

lemma startsWithSep_append_left (a b : String) (ha : a.data ≠ []) :
    startsWithSep (a ++ b) = startsWithSep a := by
  rw [startsWithSep_eq_head, startsWithSep_eq_head, String.data_append]
  cases hd : a.data with
  | nil => exact absurd hd ha
  | cons c rest => simp

lemma endsWithSep_append_right (a b : String) (hb : b.data ≠ []) :
    endsWithSep (a ++ b) = endsWithSep b := by
  rw [endsWithSep_eq_last, endsWithSep_eq_last, String.data_append,
    List.getLast?_append_of_ne_nil _ hb]

lemma endsWithSep_append_empty (a b : String) (hb : b.data = []) :
    endsWithSep (a ++ b) = endsWithSep a := by
  rw [endsWithSep_eq_last, endsWithSep_eq_last, String.data_append, hb,
    List.append_nil]

lemma data_append_ne_nil_left (a b : String) (ha : a.data ≠ []) :
    (a ++ b).data ≠ [] := by
  rw [String.data_append]
  intro h
  exact ha (List.append_eq_nil.mp h).1

lemma data_append_ne_nil_right (a b : String) (hb : b.data ≠ []) :
    (a ++ b).data ≠ [] := by
  rw [String.data_append]
  intro h
  exact hb (List.append_eq_nil.mp h).2

lemma ne_empty_of_data_ne_nil (s : String) (h : s.data ≠ []) : s ≠ "" :=
  fun he => h (by rw [he])

lemma data_ne_nil_of_ne_empty (s : String) (h : s ≠ "") : s.data ≠ [] :=
  fun hd => h (String.ext hd)

lemma os_path_join2_eq (a b : String) (hb : startsWithSep b = false)
    (ha1 : a ≠ "") (ha2 : endsWithSep a = false) :
    os_path_join2 a b = a ++ "/" ++ b := by
  unfold os_path_join2
  rw [if_neg (by simp [hb]), if_neg ?hcond]
  case hcond =>
    intro h
    rcases h with h | h
    · exact ha1 h
    · rw [ha2] at h; cases h

lemma startsWithSep_checkpointSubdir (e d hs : ℕ) (tn : String) :
    startsWithSep (checkpointSubdir e d hs tn) = false := by
  unfold checkpointSubdir
  simp only [String.append_assoc]
  rw [startsWithSep_append_left _ _ (toString_nat_data_ne_nil e)]
  exact startsWithSep_toString_nat e

lemma checkpointSubdir_data_ne_nil (e d hs : ℕ) (tn : String) :
    (checkpointSubdir e d hs tn).data ≠ [] := by
  unfold checkpointSubdir
  exact data_append_ne_nil_left _ _ (data_append_ne_nil_left _ _
    (data_append_ne_nil_left _ _ (data_append_ne_nil_left _ _
      (data_append_ne_nil_left _ _ (data_append_ne_nil_left _ _
        (toString_nat_data_ne_nil e))))))

lemma endsWithSep_checkpointSubdir (e d hs : ℕ) (tn : String)
    (h9 : endsWithSep tn = false) :
    endsWithSep (checkpointSubdir e d hs tn) = false := by
  unfold checkpointSubdir
  simp only [String.append_assoc]
  rw [endsWithSep_append_right _ _
      (data_append_ne_nil_left "-" _ (by decide)),
    endsWithSep_append_right _ _
      (data_append_ne_nil_left (toString d) _ (toString_nat_data_ne_nil d)),
    endsWithSep_append_right _ _
      (data_append_ne_nil_left "_" _ (by decide)),
    endsWithSep_append_right _ _
      (data_append_ne_nil_left (toString hs) _ (toString_nat_data_ne_nil hs)),
    endsWithSep_append_right _ _
      (data_append_ne_nil_left "_" _ (by decide))]
  by_cases htn : tn.data = []
  · rw [endsWithSep_append_empty _ _ htn]
    decide
  · rw [endsWithSep_append_right _ _ htn]
    exact h9

lemma startsWithSep_checkpointFileName (it : ℕ) :
    startsWithSep (checkpointFileName it) = false := by
  unfold checkpointFileName
  simp only [String.append_assoc]
  rw [startsWithSep_append_left _ _ (toString_nat_data_ne_nil it)]
  exact startsWithSep_toString_nat it

/-- C7: the checkpoint path `trainIters` writes to is a deterministic
function of its inputs: for directory-safe components (nonempty `save_dir`,
`model_name`, `corpus_name` that neither start nor end with the separator,
and a `train_name` not ending with it) it equals
`<save_dir>/<model_name>/<corpus_name>/<enc>-<dec>_<hidden>_<train_name>/<iteration>_checkpoint.tar`. -/
theorem checkpointPath_template (save_dir model_name corpus_name : String)
    (encoder_n_layers decoder_n_layers hidden_size : ℕ) (train_name : String)
    (iteration : ℕ)
    (h1 : save_dir ≠ "") (h2 : endsWithSep save_dir = false)
    (h3 : model_name ≠ "") (h4 : startsWithSep model_name = false)
    (h5 : endsWithSep model_name = false)
    (h6 : corpus_name ≠ "") (h7 : startsWithSep corpus_name = false)
    (h8 : endsWithSep corpus_name = false)
    (h9 : endsWithSep train_name = false) :
    checkpointPath save_dir model_name corpus_name encoder_n_layers
        decoder_n_layers hidden_size train_name iteration
      = save_dir ++ "/" ++ model_name ++ "/" ++ corpus_name ++ "/"
          ++ toString encoder_n_layers ++ "-" ++ toString decoder_n_layers
          ++ "_" ++ toString hidden_size ++ "_" ++ train_name ++ "/"
          ++ toString iteration ++ "_checkpoint.tar" := by
  have hm : model_name.data ≠ [] := data_ne_nil_of_ne_empty _ h3
  have hc : corpus_name.data ≠ [] := data_ne_nil_of_ne_empty _ h6
  unfold checkpointPath checkpointDirectory os_path_join
  simp only [List.foldl_cons, List.foldl_nil]
  rw [os_path_join2_eq save_dir model_name h4 h1 h2]
  have hd1data : (save_dir ++ "/" ++ model_name).data ≠ [] :=
    data_append_ne_nil_right _ _ hm
  rw [os_path_join2_eq _ corpus_name h7 (ne_empty_of_data_ne_nil _ hd1data)
    (by rw [endsWithSep_append_right _ _ hm]; exact h5)]
  have hd2data : (save_dir ++ "/" ++ model_name ++ "/" ++ corpus_name).data ≠ [] :=
    data_append_ne_nil_right _ _ hc
  rw [os_path_join2_eq _ _ (startsWithSep_checkpointSubdir _ _ _ _)
    (ne_empty_of_data_ne_nil _ hd2data)
    (by rw [endsWithSep_append_right _ _ hc]; exact h8)]
  have hd3data : (save_dir ++ "/" ++ model_name ++ "/" ++ corpus_name ++ "/"
      ++ checkpointSubdir encoder_n_layers decoder_n_layers hidden_size
        train_name).data ≠ [] :=
    data_append_ne_nil_right _ _ (checkpointSubdir_data_ne_nil _ _ _ _)
  rw [os_path_join2_eq _ _ (startsWithSep_checkpointFileName _)
    (ne_empty_of_data_ne_nil _ hd3data)
    (by rw [endsWithSep_append_right _ _ (checkpointSubdir_data_ne_nil _ _ _ _)]
        exact endsWithSep_checkpointSubdir _ _ _ _ h9)]
  unfold checkpointSubdir checkpointFileName
  simp only [String.append_assoc,
    show ("_" ++ ("checkpoint" ++ ".tar") : String) = "_checkpoint.tar" from rfl]

/-- Witness for C7 on concrete path components. -/
theorem checkpointPath_template_witness :
    ("save" : String) ≠ "" ∧ endsWithSep "save" = false ∧
    ("cb_model" : String) ≠ "" ∧ startsWithSep "cb_model" = false ∧
    endsWithSep "cb_model" = false ∧
    ("movie" : String) ≠ "" ∧ startsWithSep "movie" = false ∧
    endsWithSep "movie" = false ∧ endsWithSep "run1" = false ∧
    checkpointPath "save" "cb_model" "movie" 2 2 500 "run1" 4000
      = "save/cb_model/movie/2-2_500_run1/4000_checkpoint.tar" :=
  ⟨by decide, by decide, by decide, by decide, by decide, by decide, by decide,
    by decide, by decide,
    checkpointPath_template "save" "cb_model" "movie" 2 2 500 "run1" 4000
      (by decide) (by decide) (by decide) (by decide) (by decide) (by decide)
      (by decide) (by decide) (by decide)⟩

end TrainPy
